import Mathlib

/-!
Verification of the `fix_repo.py` migration script: a shallow embedding of its
string transformations (placeholder rewriting, call-site conversion, dialect
substitutions) over `List Char`, with theorems settling the specification's
claims about them.
-/

namespace Sinistra

/-- Strings are modelled as lists of characters. -/
abbrev Str := List Char

/-- The character `{` (written numerically to keep source literals simple). -/
def braceL : Char := Char.ofNat 123

/-- The character `}`. -/
def braceR : Char := Char.ofNat 125

/-- The backtick character. -/
def btick : Char := Char.ofNat 96

/-- Python whitespace for `\s` and `str.strip()`: space, tab, newline,
carriage return, vertical tab, form feed. -/
def isWS (c : Char) : Bool :=
  c = ' ' || c = '\t' || c = '\n' || c = '\r' || c = Char.ofNat 11 || c = Char.ofNat 12

/-- ASCII lower-casing, modelling `re.IGNORECASE` on ASCII patterns. -/
def lowerChar (c : Char) : Char :=
  if 'A' ≤ c ∧ c ≤ 'Z' then Char.ofNat (c.toNat + 32) else c

/-- Number of occurrences of the character `c` in `s`. -/
def countChar (c : Char) : Str → Nat
  | [] => 0
  | x :: xs => (if x = c then 1 else 0) + countChar c xs

/-- Number of positions of `s` at which the pattern `pat` occurs
(as a prefix of the suffix starting there). -/
def countOcc (pat : Str) : Str → Nat
  | [] => 0
  | x :: xs => (if pat.isPrefixOf (x :: xs) then 1 else 0) + countOcc pat xs

/-- The interpolation text inserted for an argument: the f-string
`f'$\x7b\x7barg\x7d\x7d'` of `repl_complex` produces `$\x7barg\x7d`. -/
def interp (arg : Str) : Str := '$' :: braceL :: (arg ++ [braceR])

/-- Python `s.replace(c, new, 1)` for a single-character pattern: replace the
first occurrence of `c` if any, otherwise return `s` unchanged. -/
def replaceFirstChar (c : Char) (new : Str) : Str → Str
  | [] => []
  | x :: xs => if x = c then new ++ xs else x :: replaceFirstChar c new xs

/-- The loop of `repl_complex` (fix_repo.py lines 29-32): for each argument in
order, replace the first `?` of the accumulated SQL with `$\x7barg\x7d`. -/
def rewriteLoop (sql : Str) (args : List Str) : Str :=
  args.foldl (fun acc arg => replaceFirstChar '?' (interp arg) acc) sql

/-- Join a list of segments with single `?` placeholder tokens between them:
the canonical presentation of a SQL template with `segs.length - 1`
placeholders delimiting `?`-free segments. -/
def joinQ : List Str → Str
  | [] => []
  | [s] => s
  | s :: ss => s ++ '?' :: joinQ ss

/-- The intended positional substitution: the i-th placeholder (between the
i-th and (i+1)-th segment) is bound to the i-th argument; leftover
placeholders stay literal when the arguments run out. -/
def joinInterp : List Str → List Str → Str
  | segs, [] => joinQ segs
  | [], _ :: _ => []
  | s :: segs, a :: args => s ++ interp a ++ joinInterp segs args

/-! ## Argument-list parsing (`repl_complex` lines 25-26) -/

/-- Python `s.strip(chars)`: drop characters satisfying `p` from both ends. -/
def stripBy (p : Char → Bool) (s : Str) : Str :=
  ((s.dropWhile p).reverse.dropWhile p).reverse

/-- The strip set of `args_str.strip('[] \n')`. -/
def isBracketWS (c : Char) : Bool :=
  c = '[' || c = ']' || c = ' ' || c = '\n'

/-- Python `str.strip()` with no argument (whitespace). -/
def pyStrip (s : Str) : Str := stripBy isWS s

/-- Splitting worker: the flag records whether we are inside the `\s*` tail of
a just-matched comma, whose whitespace is consumed by the match. -/
def splitCommaWSAux : Bool → Str → List Str
  | _, [] => [[]]
  | afterComma, c :: rest =>
    if afterComma && isWS c then splitCommaWSAux true rest
    else if c = ',' then [] :: splitCommaWSAux true rest
    else
      match splitCommaWSAux false rest with
      | [] => [[c]]
      | p :: ps => (c :: p) :: ps

/-- Python `re.split(r',\s*', s)`: split at each comma, greedily consuming the
whitespace that follows it. -/
def splitCommaWS (s : Str) : List Str := splitCommaWSAux false s

/-- Argument parsing of `repl_complex`: strip `[] \n` from the ends, split on
`,\s*`, strip each piece, and keep the non-empty ones. -/
def parseArgs (argsStr : Str) : List Str :=
  ((splitCommaWS (stripBy isBracketWS argsStr)).map pyStrip).filter (· ≠ [])

/-- Modelled from the spec: the argument-list splitting the specification
prescribes, which splits the bracket-stripped text only on commas at
bracket/paren depth zero, so commas inside nested brackets or parentheses do
not separate arguments.  (The script itself splits on every comma; this
definition exists to compare the two.) -/
def splitTopLevel : Nat → Str → List Str
  | _, [] => [[]]
  | d, c :: rest =>
    if c = ',' ∧ d = 0 then [] :: splitTopLevel 0 rest
    else
      let d' := if c = '(' || c = '[' then d + 1
                else if (c = ')' || c = ']') && decide (0 < d) then d - 1 else d
      match splitTopLevel d' rest with
      | [] => [[c]]
      | p :: ps => (c :: p) :: ps

/-- Modelled from the spec: argument parsing with depth-aware splitting,
otherwise identical to `parseArgs`. -/
def parseArgsSpec (argsStr : Str) : List Str :=
  ((splitTopLevel 0 (stripBy isBracketWS argsStr)).map pyStrip).filter (· ≠ [])

/-! ## Matchers for the script's regular expressions

Each Python `re.sub(pattern, repl, content)` call is modelled by a matcher
`tryX : Str → Option (captures × rest)` that attempts the pattern at the
start of the given suffix (returning the captures and the text after the
match), plus a left-to-right scan `subAll`.  The patterns contain no
constructs needing general backtracking: every `\s*`/`\s+` is followed by a
non-whitespace token, so greedy whitespace runs are maximal, and the lazy
groups `(.*?)` are modelled by trying the continuation before consuming each
character. -/

/-- Match a literal, returning the rest on success. -/
def stripLit : Str → Str → Option Str
  | [], s => some s
  | _ :: _, [] => none
  | a :: as, c :: cs => if c = a then stripLit as cs else none

/-- Match a literal case-insensitively (the literal is given lowercase),
modelling `re.IGNORECASE`. -/
def stripLitCI : Str → Str → Option Str
  | [], s => some s
  | _ :: _, [] => none
  | a :: as, c :: cs => if lowerChar c = a then stripLitCI as cs else none

/-- Greedy `\s*`. -/
def skipWS (s : Str) : Str := s.dropWhile isWS

/-- The quote class `['\"\x60]`. -/
def quoteCls (c : Char) : Bool := c = '\'' || c = '"' || c = btick

/-- The literal `client.execute(` opening all three call-site patterns. -/
def litExec : Str := ( "client.execute(").toList

/-- The literal `sql:`. -/
def litSql : Str := ( "sql:").toList

/-- The literal `args:`. -/
def litArgs : Str := ( "args:").toList

/-- Continuation closing the lazy group of the simple pattern:
`\1\s*\)` where `\1` is the opening quote. -/
def closeSimple (q : Char) : Str → Option Str
  | [] => none
  | c :: rest =>
    if c = q then
      match skipWS rest with
      | c2 :: rest2 => if c2 = ')' then some rest2 else none
      | [] => none
    else none

/-- The lazy group `(.*?)` of the simple pattern: try to close before
consuming each character (shortest match first). -/
def ngSimple (q : Char) : Str → Option (Str × Str)
  | [] => none
  | c :: rest =>
    match closeSimple q (c :: rest) with
    | some after => some ([], after)
    | none =>
      match ngSimple q rest with
      | some (g, after) => some (c :: g, after)
      | none => none

/-- The pattern `client\.execute\(\s*(['\"\x60])(.*?)\1\s*\)` (DOTALL) tried at
the start of `s`; captures the quote and the quoted value. -/
def trySimple (s : Str) : Option ((Char × Str) × Str) :=
  match stripLit litExec s with
  | none => none
  | some r1 =>
    match skipWS r1 with
    | [] => none
    | q :: r3 =>
      if quoteCls q then
        match ngSimple q r3 with
        | some (g, after) => some ((q, g), after)
        | none => none
      else none

/-- The replacement `repl_simple` (both branches produce the same string):
`client\x60{val}\x60`. -/
def repl_simple (caps : Char × Str) : Str :=
  ( "client").toList ++ [btick] ++ caps.2 ++ [btick]

/-- Continuation closing the lazy group of the complex pattern:
`['\"\x60]\s*,\s*args:\s*(\[[^\]]*\])\s*\}\s*\)`; returns capture group 2 and
the rest. -/
def closeComplex : Str → Option (Str × Str)
  | [] => none
  | c :: rest =>
    if quoteCls c then
      match skipWS rest with
      | c1 :: r2 =>
        if c1 = ',' then
          match stripLit litArgs (skipWS r2) with
          | some r4 =>
            match skipWS r4 with
            | c2 :: r6 =>
              if c2 = '[' then
                let inner := r6.takeWhile (fun x => x ≠ ']')
                match r6.dropWhile (fun x => x ≠ ']') with
                | c3 :: r8 =>
                  if c3 = ']' then
                    match skipWS r8 with
                    | c4 :: r10 =>
                      if c4 = braceR then
                        match skipWS r10 with
                        | c5 :: r12 =>
                          if c5 = ')' then some ('[' :: inner ++ [']'], r12)
                          else none
                        | [] => none
                      else none
                    | [] => none
                  else none
                | [] => none
              else none
            | [] => none
          | none => none
        else none
      | [] => none
    else none

/-- The lazy group `(.*?)` of the complex pattern: try the continuation
before consuming each character; returns (group 1, group 2, rest). -/
def ngComplex : Str → Option (Str × Str × Str)
  | [] => none
  | c :: rest =>
    match closeComplex (c :: rest) with
    | some (g2, after) => some ([], g2, after)
    | none =>
      match ngComplex rest with
      | some (g1, g2, after) => some (c :: g1, g2, after)
      | none => none

/-- The pattern
`client\.execute\(\s*\{\s*sql:\s*['\"\x60](.*?)['\"\x60]\s*,\s*args:\s*(\[[^\]]*\])\s*\}\s*\)`
(DOTALL) tried at the start of `s`. -/
def tryComplex (s : Str) : Option ((Str × Str) × Str) :=
  match stripLit litExec s with
  | none => none
  | some r1 =>
    match skipWS r1 with
    | [] => none
    | c :: r2 =>
      if c = braceL then
        match stripLit litSql (skipWS r2) with
        | none => none
        | some r4 =>
          match skipWS r4 with
          | [] => none
          | q :: r5 =>
            if quoteCls q then
              match ngComplex r5 with
              | some (g1, g2, after) => some ((g1, g2), after)
              | none => none
            else none
      else none

/-- The replacement `repl_complex`: parse the args, then substitute the
placeholders one by one. -/
def repl_complex (caps : Str × Str) : Str :=
  ( "client").toList ++ [btick] ++ rewriteLoop caps.1 (parseArgs caps.2) ++ [btick]

/-- Continuation closing the lazy group of the no-args pattern:
`['\"\x60]\s*\}\s*\)`. -/
def closeNoArgs : Str → Option Str
  | [] => none
  | c :: rest =>
    if quoteCls c then
      match skipWS rest with
      | c1 :: r2 =>
        if c1 = braceR then
          match skipWS r2 with
          | c2 :: r4 => if c2 = ')' then some r4 else none
          | [] => none
        else none
      | [] => none
    else none

/-- The lazy group of the no-args pattern. -/
def ngNoArgs : Str → Option (Str × Str)
  | [] => none
  | c :: rest =>
    match closeNoArgs (c :: rest) with
    | some after => some ([], after)
    | none =>
      match ngNoArgs rest with
      | some (g, after) => some (c :: g, after)
      | none => none

/-- The pattern `client\.execute\(\s*\{\s*sql:\s*['\"\x60](.*?)['\"\x60]\s*\}\s*\)`
(DOTALL) tried at the start of `s`. -/
def tryNoArgs (s : Str) : Option (Str × Str) :=
  match stripLit litExec s with
  | none => none
  | some r1 =>
    match skipWS r1 with
    | [] => none
    | c :: r2 =>
      if c = braceL then
        match stripLit litSql (skipWS r2) with
        | none => none
        | some r4 =>
          match skipWS r4 with
          | [] => none
          | q :: r5 => if quoteCls q then ngNoArgs r5 else none
      else none

/-- The replacement `repl_no_args`: `client\x60{sql}\x60`. -/
def repl_no_args (sql : Str) : Str :=
  ( "client").toList ++ [btick] ++ sql ++ [btick]

/-- The pattern `=\s*\?\s*COLLATE\s+NOCASE` with `re.IGNORECASE` tried at the
start of `s`. -/
def tryCollate (s : Str) : Option (Unit × Str) :=
  match s with
  | [] => none
  | c :: r1 =>
    if c = '=' then
      match skipWS r1 with
      | c1 :: r3 =>
        if c1 = '?' then
          match stripLitCI (( "collate").toList) (skipWS r3) with
          | some r5 =>
            match r5 with
            | c2 :: r6 =>
              if isWS c2 then
                match stripLitCI (( "nocase").toList) (skipWS r6) with
                | some r8 => some ((), r8)
                | none => none
              else none
            | [] => none
          | none => none
        else none
      | [] => none
    else none

/-- Fuelled left-to-right scan of `re.sub`: at each position try the pattern;
on a match emit the replacement and continue after the match, otherwise keep
the character and move one position right.  All the matchers above consume at
least one character on success, so fuel `s.length` never runs out. -/
def subScanF (mt : Str → Option (α × Str)) (rp : α → Str) : Nat → Str → Str
  | 0, s => s
  | _ + 1, [] => []
  | n + 1, c :: rest =>
    match mt (c :: rest) with
    | some (caps, after) => rp caps ++ subScanF mt rp n after
    | none => c :: subScanF mt rp n rest

/-- `re.sub(pattern, repl, s)`. -/
def subAll (mt : Str → Option (α × Str)) (rp : α → Str) (s : Str) : Str :=
  subScanF mt rp s.length s

/-- Fuelled scan of Python `str.replace(pat, new)` (all occurrences,
non-overlapping, left to right); `pat` is non-empty for every use below. -/
def replaceAllF (pat new : Str) : Nat → Str → Str
  | 0, s => s
  | _ + 1, [] => []
  | n + 1, c :: rest =>
    if pat.isPrefixOf (c :: rest) then new ++ replaceAllF pat new n ((c :: rest).drop pat.length)
    else c :: replaceAllF pat new n rest

/-- Python `s.replace(pat, new)`. -/
def replaceAll (pat new s : Str) : Str := replaceAllF pat new s.length s

/-! ## The script's per-file pipeline -/

/-- `convert_client_execute` (fix_repo.py lines 5-42): the simple-shape
substitution followed by the complex-shape substitution. -/
def convert_client_execute (content : Str) : Str :=
  subAll tryComplex repl_complex (subAll trySimple repl_simple content)

/-- The `COLLATE NOCASE` dialect substitution (line 51). -/
def collateSub (s : Str) : Str := subAll tryCollate (fun _ => ( "ILIKE ?").toList) s

/-- The first `json_extract` literal (line 55). -/
def jsonLit1 : Str := ( "json_extract(power, \x27$[0]\x27) = ? COLLATE NOCASE").toList

/-- The second `json_extract` literal (line 59). -/
def jsonLit2 : Str := ( "json_extract(power, \x27$[0]\x27) ILIKE ?").toList

/-- The replacement for both `json_extract` literals. -/
def jsonRep : Str := ( "power->>0 ILIKE ?").toList

/-- The two `json_extract` literal substitutions, in the script's order
(lines 54-61). -/
def jsonSubs (s : Str) : Str := replaceAll jsonLit2 jsonRep (replaceAll jsonLit1 jsonRep s)

/-- The whole per-file transformation (lines 49-68): call-site conversion,
`COLLATE NOCASE` substitution, the two `json_extract` substitutions, and the
no-args conversion. -/
def processFile (content : Str) : Str :=
  subAll tryNoArgs repl_no_args (jsonSubs (collateSub (convert_client_execute content)))

/-- Whether `pat` occurs anywhere in `s` (as a prefix of some suffix). -/
def containsB (pat : Str) : Str → Bool
  | [] => pat.isPrefixOf []
  | c :: rest => pat.isPrefixOf (c :: rest) || containsB pat rest

/-- Whether the matcher `mt` succeeds at some position of `s`. -/
def hasMatchB (mt : Str → Option (α × Str)) : Str → Bool
  | [] => (mt []).isSome
  | c :: rest => (mt (c :: rest)).isSome || hasMatchB mt rest

/-- The two-character pattern `$\x7b` opening an interpolation. -/
def dsPat : Str := ['$', braceL]

/-- The idiom text matched by the `COLLATE NOCASE` substitution at its
canonical spacing. -/
def collIdiom : Str := ( "= ? COLLATE NOCASE").toList

/-- The replacement text of the `COLLATE NOCASE` substitution. -/
def ilike7 : Str := ( "ILIKE ?").toList

/-- The bare `ILIKE` keyword. -/
def ilikeLit : Str := ( "ILIKE").toList

/-- The lowercase form of the idiom, for case-insensitive counting. -/
def collLow : Str := ( "collate nocase").toList

/-- The text before the SQL literal in the canonical empty-args call shape. -/
def pre10 : Str := ( "client.execute(\x7b sql: \"").toList

/-- The text after the SQL literal in the canonical empty-args call shape. -/
def post10 : Str := ( "\", args: [] \x7d)").toList

/-! ## Evaluations of the spec's concrete scenarios -/

example : ( "ab?cd").toList = ['a', 'b', '?', 'c', 'd'] := by decide

example : rewriteLoop ( "a=? b=?").toList [( "x").toList, ( "y").toList]
    = ( "a=$\x7bx\x7d b=$\x7by\x7d").toList := by decide

example : parseArgs ( "[name, age]").toList = [( "name").toList, ( "age").toList] := by
  decide

example : parseArgs ( "[]").toList = [] := by decide

example : convert_client_execute ( "client.execute(\"SELECT * FROM users\")").toList
    = ( "client\x60SELECT * FROM users\x60").toList := by decide

example : processFile ( "client.execute(\x7b sql: \"SELECT 1\" \x7d)").toList
    = ( "client\x60SELECT 1\x60").toList := by decide

example : collateSub ( "WHERE name = ? COLLATE NOCASE").toList
    = ( "WHERE name ILIKE ?").toList := by decide

example : processFile ( "json_extract(power, \x27$[0]\x27) = ? COLLATE NOCASE").toList
    = ( "power->>0 ILIKE ?").toList := by decide

/-! ## Basic lemmas about prefixes and occurrence counting -/

theorem prefOf_length_le : ∀ (p w : Str), p.isPrefixOf w = true → p.length ≤ w.length
  | [], _, _ => Nat.zero_le _
  | _ :: _, [], h => by simp [List.isPrefixOf] at h
  | a :: as, b :: bs, h => by
    simp only [List.isPrefixOf, Bool.and_eq_true] at h
    simpa using Nat.succ_le_succ (prefOf_length_le as bs h.2)

theorem prefOf_append_left : ∀ (p w v : Str), p.length ≤ w.length →
    p.isPrefixOf (w ++ v) = p.isPrefixOf w
  | [], _, _, _ => by simp [List.isPrefixOf]
  | _ :: _, [], _, h => by simp at h
  | a :: as, b :: bs, v, h => by
    simp only [List.cons_append, List.isPrefixOf, List.append_eq]
    rw [prefOf_append_left as bs v (by simpa using h)]

theorem prefOf_span : ∀ (p w v : Str), p.isPrefixOf (w ++ v) = true → w.length < p.length →
    p.take w.length = w ∧ (p.drop w.length).isPrefixOf v = true
  | p, [], v, h, _ => by simpa using h
  | [], b :: bs, _, _, hl => by simp at hl
  | a :: as, b :: bs, v, h, hl => by
    simp only [List.cons_append, List.isPrefixOf, Bool.and_eq_true, beq_iff_eq] at h
    obtain ⟨h1, h2⟩ := prefOf_span as bs v h.2 (by simpa using hl)
    refine ⟨?_, by simpa using h2⟩
    simp [List.take, h.1, h1]

theorem countOcc_append (pat v : Str) : ∀ (u : Str),
    (∀ w, w <:+ u → w ≠ [] → w.length < pat.length →
      ¬(pat.take w.length = w ∧ (pat.drop w.length).isPrefixOf v = true)) →
    countOcc pat (u ++ v) = countOcc pat u + countOcc pat v
  | [], _ => by simp [countOcc]
  | c :: u', h => by
    have ih := countOcc_append pat v u' (fun w hw => h w (hw.trans (List.suffix_cons c u')))
    simp only [List.cons_append, countOcc, List.append_eq]
    rw [ih]
    rcases le_or_lt pat.length (c :: u').length with hle | hlt
    · have heq := prefOf_append_left pat (c :: u') v hle
      simp only [List.cons_append] at heq
      simp only [heq]
      omega
    · have h1 : pat.isPrefixOf (c :: u') = false := by
        cases hp : pat.isPrefixOf (c :: u') with
        | false => rfl
        | true => exact absurd (prefOf_length_le _ _ hp) (Nat.not_le_of_lt hlt)
      have h2 : pat.isPrefixOf (c :: (u' ++ v)) = false := by
        cases hp : pat.isPrefixOf (c :: (u' ++ v)) with
        | false => rfl
        | true =>
          have hsp := prefOf_span pat (c :: u') v (by simpa using hp) hlt
          exact absurd hsp (h (c :: u') (List.suffix_refl _) (by simp) hlt)
      simp only [h1, h2]
      omega

theorem first_of_prefOf_cons (p w : Str) (c : Char) (h : p.isPrefixOf (c :: w) = true)
    (hne : p ≠ []) : c ∈ p := by
  cases p with
  | nil => exact absurd rfl hne
  | cons a as =>
    simp only [List.isPrefixOf, Bool.and_eq_true, beq_iff_eq] at h
    simp [h.1]

theorem last_of_suffix_snoc (w z : Str) (c : Char) (h : w <:+ z ++ [c]) (hne : w ≠ []) :
    c ∈ w := by
  obtain ⟨t, ht⟩ := h
  have hrev := congrArg List.reverse ht
  simp only [List.reverse_append, List.reverse_cons, List.reverse_nil, List.nil_append] at hrev
  rw [← List.mem_reverse]
  cases hw : w.reverse with
  | nil => exact absurd (by simpa using congrArg List.reverse hw) hne
  | cons a r =>
    rw [hw] at hrev
    simp only [List.cons_append] at hrev
    have : a = c := by injection hrev
    simp [this]

theorem span_discharge_head (pat v' : Str) (c : Char) (hc : c ∉ pat) :
    ∀ w : Str, w.length < pat.length →
      ¬(pat.take w.length = w ∧ (pat.drop w.length).isPrefixOf (c :: v') = true) := by
  intro w hlen ⟨_, h2⟩
  have hdne : pat.drop w.length ≠ [] := by
    have : (pat.drop w.length).length = pat.length - w.length := List.length_drop _ _
    intro hcontra
    rw [hcontra] at this
    simp at this
    omega
  exact hc (List.mem_of_mem_drop (first_of_prefOf_cons _ _ _ h2 hdne))

theorem span_discharge_last (pat z u : Str) (c : Char) (hc : c ∉ pat) (hu : u = z ++ [c]) :
    ∀ w : Str, w <:+ u → w ≠ [] →
      ¬(pat.take w.length = w ∧ (pat.drop w.length).isPrefixOf v = true) := by
  intro w hw hne ⟨h1, _⟩
  subst hu
  have hcw : c ∈ w := last_of_suffix_snoc w z c hw hne
  rw [← h1] at hcw
  exact hc (List.take_subset _ _ hcw)

/-! ## Counting through the placeholder-rewrite loop -/

theorem countChar_append (c : Char) : ∀ (u v : Str),
    countChar c (u ++ v) = countChar c u + countChar c v
  | [], _ => by simp [countChar]
  | x :: u', v => by
    simp only [List.cons_append, countChar, List.append_eq]
    rw [countChar_append c u' v]
    omega

theorem countChar_interp (a : Str) : countChar '?' (interp a) = countChar '?' a := by
  simp only [interp, countChar]
  rw [countChar_append]
  simp [countChar, braceL, braceR]

theorem countChar_rF (c : Char) (new : Str) : ∀ (s : Str), 0 < countChar c s →
    countChar c (replaceFirstChar c new s) = countChar c s - 1 + countChar c new
  | [], h => by simp [countChar] at h
  | x :: xs, h => by
    by_cases hx : x = c
    · simp only [replaceFirstChar, if_pos hx, countChar_append]
      simp [countChar, hx]
      omega
    · simp only [replaceFirstChar, if_neg hx, countChar]
      have h' : 0 < countChar c xs := by
        simp only [countChar, if_neg hx] at h
        omega
      rw [countChar_rF c new xs h']
      omega

theorem countOcc_cons_ds (x : Char) (w : Str) :
    countOcc dsPat (x :: w) =
      (if x = '$' ∧ w.head? = some braceL then 1 else 0) + countOcc dsPat w := by
  simp only [countOcc, dsPat]
  congr 1
  cases w with
  | nil => simp [List.isPrefixOf]
  | cons y ys =>
    simp only [List.isPrefixOf, List.head?, Option.some.injEq, Bool.and_true,
      Bool.and_eq_true, beq_iff_eq]
    by_cases hx : x = '$' <;> by_cases hy : y = braceL <;>
      simp [hx, hy, eq_comm]

theorem countOcc_ds_interp_append (a w : Str) :
    countOcc dsPat (interp a ++ w) = 1 + countOcc dsPat a + countOcc dsPat w := by
  have hmid : countOcc dsPat (a ++ braceR :: w)
      = countOcc dsPat a + countOcc dsPat (braceR :: w) := by
    apply countOcc_append
    intro u hu hne hlen ⟨h1, h2⟩
    have hu1 : u.length = 1 := by
      simp only [dsPat, List.length_cons, List.length_nil] at hlen
      have := List.length_pos.mpr hne
      omega
    rw [hu1] at h2
    have hmem : braceR ∈ dsPat.drop 1 :=
      first_of_prefOf_cons _ _ _ h2 (by simp [dsPat])
    exact absurd hmem (by decide)
  have h1 : interp a ++ w = '$' :: braceL :: (a ++ braceR :: w) := by
    simp [interp]
  rw [h1, countOcc_cons_ds, countOcc_cons_ds, hmid]
  have hbr : countOcc dsPat (braceR :: w) = countOcc dsPat w := by
    rw [countOcc_cons_ds]
    simp [braceR]
  rw [hbr]
  have hd : ('$' = '$' ∧ (braceL :: (a ++ braceR :: w)).head? = some braceL) := by simp
  rw [if_pos hd]
  have hd2 : ¬(braceL = '$' ∧ (a ++ braceR :: w).head? = some braceL) := by
    intro ⟨hcontra, _⟩
    exact absurd hcontra (by decide)
  rw [if_neg hd2]
  omega

theorem countOcc_ds_rF (a : Str) : ∀ (s : Str), 0 < countChar '?' s →
    countOcc dsPat (replaceFirstChar '?' (interp a) s)
      = countOcc dsPat s + 1 + countOcc dsPat a
  | [], h => by simp [countChar] at h
  | x :: xs, h => by
    by_cases hx : x = '?'
    · simp only [replaceFirstChar, if_pos hx]
      rw [countOcc_ds_interp_append]
      subst hx
      rw [countOcc_cons_ds]
      have : ¬('?' = '$' ∧ xs.head? = some braceL) := by
        intro ⟨hcontra, _⟩
        exact absurd hcontra (by decide)
      rw [if_neg this]
      omega
    · simp only [replaceFirstChar, if_neg hx]
      have h' : 0 < countChar '?' xs := by
        simp only [countChar, if_neg hx] at h
        omega
      rw [countOcc_cons_ds, countOcc_cons_ds, countOcc_ds_rF a xs h']
      have hhead : (replaceFirstChar '?' (interp a) xs).head? = some braceL ↔
          xs.head? = some braceL := by
        cases xs with
        | nil => simp [replaceFirstChar]
        | cons y ys =>
          by_cases hy : y = '?'
          · subst hy
            have hrw : replaceFirstChar '?' (interp a) ('?' :: ys) = interp a ++ ys := by
              simp [replaceFirstChar]
            rw [hrw]
            have hih : (interp a ++ ys).head? = some '$' := by simp [interp]
            rw [hih]
            constructor
            · intro hcontra
              exact absurd (Option.some.inj hcontra) (by decide)
            · intro hcontra
              simp only [List.head?, Option.some.injEq] at hcontra
              exact absurd hcontra (by decide)
          · simp [replaceFirstChar, if_neg hy]
      by_cases hh : xs.head? = some braceL
    <;> by_cases hx2 : x = '$'
      · rw [if_pos ⟨hx2, hhead.mpr hh⟩, if_pos ⟨hx2, hh⟩]
        omega
      · rw [if_neg (fun hc => hx2 hc.1), if_neg (fun hc => hx2 hc.1)]
        omega
      · rw [if_neg (fun hc => hh (hhead.mp hc.2)), if_neg (fun hc => hh hc.2)]
        omega
      · rw [if_neg (fun hc => hx2 hc.1), if_neg (fun hc => hx2 hc.1)]
        omega

theorem rewriteLoop_cons (sql : Str) (a : Str) (args : List Str) :
    rewriteLoop sql (a :: args)
      = rewriteLoop (replaceFirstChar '?' (interp a) sql) args := rfl

theorem rewriteLoop_nil (sql : Str) : rewriteLoop sql [] = sql := rfl

theorem rewriteLoop_counts : ∀ (args : List Str) (sql : Str),
    (∀ a ∈ args, countChar '?' a = 0) → args.length ≤ countChar '?' sql →
    countChar '?' (rewriteLoop sql args) = countChar '?' sql - args.length ∧
    countOcc dsPat (rewriteLoop sql args)
      = countOcc dsPat sql + args.length + (args.map (countOcc dsPat)).sum
  | [], sql, _, _ => by simp [rewriteLoop_nil]
  | a :: args, sql, hq, hlen => by
    have hpos : 0 < countChar '?' sql := by
      simp only [List.length_cons] at hlen
      omega
    have hcc : countChar '?' (replaceFirstChar '?' (interp a) sql)
        = countChar '?' sql - 1 := by
      rw [countChar_rF _ _ _ hpos, countChar_interp, hq a (by simp)]
      omega
    have hoc := countOcc_ds_rF a sql hpos
    rw [rewriteLoop_cons]
    obtain ⟨ih1, ih2⟩ := rewriteLoop_counts args (replaceFirstChar '?' (interp a) sql)
      (fun b hb => hq b (by simp [hb]))
      (by rw [hcc] ; simp only [List.length_cons] at hlen ; omega)
    constructor
    · rw [ih1, hcc]
      simp only [List.length_cons]
      omega
    · rw [ih2, hoc]
      simp only [List.length_cons, List.map_cons, List.sum_cons]
      omega

/-! ## Structural characterisation of the rewrite loop (positional binding) -/

theorem countChar_zero_notMem {c : Char} : ∀ {s : Str}, countChar c s = 0 → c ∉ s
  | [], _ => by simp
  | x :: xs, h => by
    simp only [countChar] at h
    by_cases hx : x = c
    · rw [if_pos hx] at h
      omega
    · rw [if_neg hx] at h
      simp only [List.mem_cons, not_or]
      exact ⟨fun heq => hx heq.symm, countChar_zero_notMem (by omega)⟩

theorem rF_pass (new : Str) : ∀ (u w : Str), countChar '?' u = 0 →
    replaceFirstChar '?' new (u ++ w) = u ++ replaceFirstChar '?' new w
  | [], _, _ => by simp
  | x :: u', w, h => by
    have hx : ¬x = '?' := by
      intro hcontra
      simp only [countChar, if_pos hcontra] at h
      omega
    have h' : countChar '?' u' = 0 := by
      simp only [countChar, if_neg hx] at h
      omega
    simp only [List.cons_append, replaceFirstChar, if_neg hx, List.append_eq]
    rw [rF_pass new u' w h']

theorem rF_hit (new u w : Str) (h : countChar '?' u = 0) :
    replaceFirstChar '?' new (u ++ '?' :: w) = u ++ new ++ w := by
  rw [rF_pass new u ('?' :: w) h]
  simp [replaceFirstChar]

theorem rewriteLoop_pass : ∀ (args : List Str) (u w : Str), countChar '?' u = 0 →
    rewriteLoop (u ++ w) args = u ++ rewriteLoop w args
  | [], _, _, _ => by simp [rewriteLoop_nil]
  | a :: args, u, w, h => by
    rw [rewriteLoop_cons, rewriteLoop_cons, rF_pass _ u w h,
      rewriteLoop_pass args u _ h]

theorem countChar_interp_zero (a : Str) (h : countChar '?' a = 0) :
    countChar '?' (interp a) = 0 := by
  rw [countChar_interp, h]

theorem rewriteLoop_joinQ : ∀ (args : List Str) (segs : List Str),
    (∀ s ∈ segs, countChar '?' s = 0) → (∀ a ∈ args, countChar '?' a = 0) →
    args.length < segs.length →
    rewriteLoop (joinQ segs) args = joinInterp segs args
  | [], segs, _, _, _ => by
    rw [rewriteLoop_nil]
    cases segs <;> rfl
  | a :: args, [], _, _, hlen => by simp at hlen
  | a :: args, [s0], _, _, hlen => by simp at hlen
  | a :: args, s0 :: s1 :: rest, hseg, harg, hlen => by
    have hs0 : countChar '?' s0 = 0 := hseg s0 (by simp)
    have hjq : joinQ (s0 :: s1 :: rest) = s0 ++ '?' :: joinQ (s1 :: rest) := by
      simp [joinQ]
    rw [hjq, rewriteLoop_cons, rF_hit _ _ _ hs0]
    have hu0 : countChar '?' (s0 ++ interp a) = 0 := by
      rw [countChar_append, hs0, countChar_interp_zero a (harg a (by simp))]
    have hstep : s0 ++ interp a ++ joinQ (s1 :: rest)
        = (s0 ++ interp a) ++ joinQ (s1 :: rest) := by simp
    rw [hstep, rewriteLoop_pass args _ _ hu0]
    rw [rewriteLoop_joinQ args (s1 :: rest) (fun s hs => hseg s (by simp [hs]))
      (fun b hb => harg b (by simp [hb]))
      (by simp only [List.length_cons] at hlen ⊢ ; omega)]
    simp [joinInterp]

/-! ## Lemmas about the substitution scans -/

theorem subScanF_nil (mt : Str → Option (α × Str)) (rp : α → Str) :
    ∀ n, subScanF mt rp n [] = []
  | 0 => rfl
  | _ + 1 => rfl

theorem subScanF_noMatch (mt : Str → Option (α × Str)) (rp : α → Str) :
    ∀ (s : Str), (∀ t, t <:+ s → mt t = none) → ∀ n, subScanF mt rp n s = s
  | [], _, n => subScanF_nil mt rp n
  | c :: rest, h, 0 => rfl
  | c :: rest, h, n + 1 => by
    simp only [subScanF, h (c :: rest) (List.suffix_refl _)]
    rw [subScanF_noMatch mt rp rest
      (fun t ht => h t (ht.trans (List.suffix_cons c rest))) n]

theorem isSome_false_none {o : Option β} (h : o.isSome = false) : o = none := by
  cases o with
  | none => rfl
  | some v => simp at h

theorem hasMatchB_false (mt : Str → Option (α × Str)) :
    ∀ (s : Str), hasMatchB mt s = false → ∀ t, t <:+ s → mt t = none
  | [], h, t, ht => by
    rw [List.suffix_nil.mp ht]
    exact isSome_false_none (by simpa [hasMatchB] using h)
  | c :: rest, h, t, ht => by
    simp only [hasMatchB, Bool.or_eq_false_iff] at h
    rcases List.suffix_cons_iff.mp ht with rfl | ht'
    · exact isSome_false_none h.1
    · exact hasMatchB_false mt rest h.2 t ht'

theorem subAll_noMatch (mt : Str → Option (α × Str)) (rp : α → Str) (s : Str)
    (h : hasMatchB mt s = false) : subAll mt rp s = s :=
  subScanF_noMatch mt rp s (hasMatchB_false mt s h) s.length

theorem replaceAllF_noOcc (pat new : Str) :
    ∀ (s : Str), (∀ t, t <:+ s → pat.isPrefixOf t = false) → ∀ n, replaceAllF pat new n s = s
  | [], _, 0 => rfl
  | [], _, _ + 1 => rfl
  | c :: rest, h, 0 => rfl
  | c :: rest, h, n + 1 => by
    simp only [replaceAllF, h (c :: rest) (List.suffix_refl _)]
    simp only [Bool.false_eq_true, if_false]
    rw [replaceAllF_noOcc pat new rest
      (fun t ht => h t (ht.trans (List.suffix_cons c rest))) n]

theorem containsB_false (pat : Str) :
    ∀ (s : Str), containsB pat s = false → ∀ t, t <:+ s → pat.isPrefixOf t = false
  | [], h, t, ht => by
    rw [List.suffix_nil.mp ht]
    simpa [containsB] using h
  | c :: rest, h, t, ht => by
    simp only [containsB, Bool.or_eq_false_iff] at h
    rcases List.suffix_cons_iff.mp ht with rfl | ht'
    · exact h.1
    · exact containsB_false pat rest h.2 t ht'

theorem replaceAll_noOcc (pat new s : Str) (h : containsB pat s = false) :
    replaceAll pat new s = s :=
  replaceAllF_noOcc pat new s (containsB_false pat s h) s.length

theorem containsB_of_suffix (pat : Str) :
    ∀ (u t : Str), t <:+ u → pat.isPrefixOf t = true → containsB pat u = true
  | [], t, ht, hp => by
    rw [List.suffix_nil.mp ht] at hp
    simpa [containsB] using hp
  | c :: rest, t, ht, hp => by
    simp only [containsB, Bool.or_eq_true]
    rcases List.suffix_cons_iff.mp ht with rfl | ht'
    · exact Or.inl hp
    · exact Or.inr (containsB_of_suffix pat rest t ht' hp)

theorem subScanF_pass (mt : Str → Option (α × Str)) (rp : α → Str) :
    ∀ (u w : Str), (∀ t, t <:+ u → t ≠ [] → mt (t ++ w) = none) →
      ∀ n, subScanF mt rp (u.length + n) (u ++ w) = u ++ subScanF mt rp n w
  | [], w, _, n => by simp
  | c :: u', w, h, n => by
    have hfuel : (c :: u').length + n = (u'.length + n) + 1 := by
      simp only [List.length_cons]
      omega
    rw [hfuel]
    have hm : mt (c :: (u' ++ w)) = none := by
      have := h (c :: u') (List.suffix_refl _) (by simp)
      simpa using this
    simp only [List.cons_append, List.append_eq, subScanF, hm]
    rw [subScanF_pass mt rp u' w
      (fun t ht hne => h t (ht.trans (List.suffix_cons c u')) hne) n]

theorem subAll_full (mt : Str → Option (α × Str)) (rp : α → Str) (s : Str) (caps : α)
    (h : mt s = some (caps, [])) (hne : s ≠ []) : subAll mt rp s = rp caps := by
  cases s with
  | nil => exact absurd rfl hne
  | cons c rest =>
    simp only [subAll, List.length_cons, subScanF, h]
    rw [subScanF_nil]
    simp

theorem suffix_append_cases (t : Str) : ∀ (u w : Str), t <:+ u ++ w →
    t <:+ w ∨ ∃ u', u' <:+ u ∧ u' ≠ [] ∧ t = u' ++ w
  | [], w, h => Or.inl (by simpa using h)
  | c :: u', w, h => by
    rw [List.cons_append] at h
    rcases List.suffix_cons_iff.mp h with rfl | h'
    · exact Or.inr ⟨c :: u', List.suffix_refl _, by simp, by simp⟩
    · rcases suffix_append_cases t u' w h' with hw | ⟨u'', huu, hne, rfl⟩
      · exact Or.inl hw
      · exact Or.inr ⟨u'', huu.trans (List.suffix_cons c u'), hne, rfl⟩

/-- When none of the script's patterns matches anywhere in `s`, the whole
per-file transformation leaves `s` unchanged. -/
theorem processFile_id (s : Str)
    (h1 : hasMatchB trySimple s = false) (h2 : hasMatchB tryComplex s = false)
    (h3 : hasMatchB tryCollate s = false)
    (h4 : containsB jsonLit1 s = false) (h5 : containsB jsonLit2 s = false)
    (h6 : hasMatchB tryNoArgs s = false) : processFile s = s := by
  unfold processFile convert_client_execute collateSub jsonSubs
  rw [subAll_noMatch _ _ _ h1, subAll_noMatch _ _ _ h2, subAll_noMatch _ _ _ h3,
    replaceAll_noOcc _ _ _ h4, replaceAll_noOcc _ _ _ h5, subAll_noMatch _ _ _ h6]

/-! ## The `COLLATE NOCASE` substitution on a delimited occurrence -/

theorem tryCollate_ne (c : Char) (r : Str) (h : ¬c = '=') : tryCollate (c :: r) = none := by
  simp [tryCollate, h]

theorem mem_dropWhile (p : Char → Bool) : ∀ (l : Str) (a : Char), a ∈ l.dropWhile p → a ∈ l
  | [], a, h => by simp at h
  | c :: r, a, h => by
    by_cases hc : p c
    · rw [List.dropWhile_cons, if_pos hc] at h
      exact List.mem_cons_of_mem c (mem_dropWhile p r a h)
    · rw [List.dropWhile_cons, if_neg hc] at h
      exact h

theorem tryCollate_noQ (t : Str) (h : '?' ∉ t) : tryCollate t = none := by
  cases t with
  | nil => rfl
  | cons c r =>
    by_cases hc : c = '='
    · subst hc
      cases hsw : skipWS r with
      | nil => simp [tryCollate, hsw]
      | cons c1 r3 =>
        have hmem : c1 ∈ r := by
          apply mem_dropWhile isWS
          rw [show r.dropWhile isWS = skipWS r from rfl, hsw]
          exact List.mem_cons_self c1 r3
        have hne : ¬c1 = '?' := by
          intro hcontra
          exact h (List.mem_cons_of_mem '=' (hcontra ▸ hmem))
        simp [tryCollate, hsw, hne]
    · exact tryCollate_ne c r hc

theorem collateSub_decomp (u v : Str) (hu : '=' ∉ u) (hv : '?' ∉ v) :
    collateSub (u ++ collIdiom ++ v) = u ++ ilike7 ++ v := by
  unfold collateSub subAll
  rw [List.append_assoc]
  rw [show (u ++ (collIdiom ++ v)).length = u.length + (collIdiom ++ v).length from
    List.length_append _ _]
  rw [subScanF_pass _ _ u (collIdiom ++ v) ?side]
  case side =>
    intro t ht hne
    cases t with
    | nil => exact absurd rfl hne
    | cons c t' =>
      have hcm : c ∈ u := ht.subset (List.mem_cons_self c t')
      have hcne : ¬c = '=' := fun hcontra => hu (hcontra ▸ hcm)
      rw [List.cons_append]
      exact tryCollate_ne c _ hcne
  have h18 : collIdiom.length = 18 := by decide
  rw [show (collIdiom ++ v).length = (17 + v.length) + 1 from by
    rw [List.length_append, h18] ; omega]
  rw [show subScanF tryCollate (fun _ => ( "ILIKE ?").toList) ((17 + v.length) + 1)
      (collIdiom ++ v)
      = ( "ILIKE ?").toList
        ++ subScanF tryCollate (fun _ => ( "ILIKE ?").toList) (17 + v.length) v from rfl]
  rw [subScanF_noMatch _ _ v
    (fun t ht => tryCollate_noQ t (fun hq => hv (ht.subset hq))) (17 + v.length)]
  simp [ilike7]

theorem ilike_drop_not_pref (v : Str) (k : Nat) (h1 : 0 < k) (h2 : k < ilikeLit.length) :
    (ilikeLit.drop k).isPrefixOf (ilike7 ++ v) = false := by
  have h5 : ilikeLit.length = 5 := by decide
  have h7 : ilike7.length = 7 := by decide
  have hlen : (ilikeLit.drop k).length ≤ ilike7.length := by
    rw [List.length_drop, h5, h7]
    omega
  rw [prefOf_append_left _ _ _ hlen]
  rw [h5] at h2
  interval_cases k <;> decide

theorem collate_result_counts (u v : Str)
    (hu_ci : countOcc collLow (u.map lowerChar) = 0)
    (hv_ci : countOcc collLow (v.map lowerChar) = 0)
    (hu_il : countOcc ilikeLit u = 0) (hv_il : countOcc ilikeLit v = 0) :
    countOcc collLow ((u ++ ilike7 ++ v).map lowerChar) = 0 ∧
    countOcc ilikeLit (u ++ ilike7 ++ v) = 1 := by
  constructor
  · rw [List.append_assoc, List.map_append, List.map_append]
    rw [show ilike7.map lowerChar = 'i' :: ( "like ?").toList from by decide,
      List.cons_append]
    rw [countOcc_append collLow _ (u.map lowerChar)
      (fun w _ _ hlen => span_discharge_head collLow
        (( "like ?").toList ++ v.map lowerChar) 'i' (by decide) w hlen)]
    rw [show 'i' :: (( "like ?").toList ++ v.map lowerChar)
      = ( "ilike ?").toList ++ v.map lowerChar from rfl]
    rw [countOcc_append collLow (v.map lowerChar) (( "ilike ?").toList)
      (fun w hw hne _ => span_discharge_last collLow (( "ilike ").toList)
        (( "ilike ?").toList) '?' (by decide) (by decide) w hw hne)]
    rw [hu_ci, hv_ci, show countOcc collLow (( "ilike ?").toList) = 0 from by decide]
  · rw [List.append_assoc]
    rw [countOcc_append ilikeLit (ilike7 ++ v) u ?hA]
    case hA =>
      intro w _ hne hlen hsp
      have h0 : 0 < w.length := List.length_pos.mpr hne
      have hfalse := ilike_drop_not_pref v w.length h0 hlen
      rw [hfalse] at hsp
      exact absurd hsp.2 (by simp)
    rw [countOcc_append ilikeLit v ilike7
      (fun w hw hne _ => span_discharge_last ilikeLit (( "ILIKE ").toList)
        ilike7 '?' (by decide) (by decide) w hw hne)]
    rw [hu_il, hv_il, show countOcc ilikeLit ilike7 = 1 from by decide]

/-! ## The complex pattern on an empty-args call site -/

theorem subAll_noMatchP (mt : Str → Option (α × Str)) (rp : α → Str) (s : Str)
    (h : ∀ t, t <:+ s → mt t = none) : subAll mt rp s = s :=
  subScanF_noMatch mt rp s h s.length

theorem stripLit_eq_none : ∀ (lit s : Str), lit.isPrefixOf s = false → stripLit lit s = none
  | [], s, h => by simp [List.isPrefixOf] at h
  | a :: as, [], _ => rfl
  | a :: as, c :: cs, h => by
    simp only [List.isPrefixOf, Bool.and_eq_false_iff, beq_eq_false_iff_ne, ne_eq] at h
    by_cases hc : c = a
    · rcases h with h | h
      · exact absurd hc.symm h
      · simp only [stripLit, if_pos hc]
        exact stripLit_eq_none as cs h
    · simp [stripLit, hc]

theorem trySimple_none_of_noLit (t : Str) (h : stripLit litExec t = none) :
    trySimple t = none := by
  simp [trySimple, h]

theorem litExec_not_pref_inside (sql : Str) (hcl : containsB litExec sql = false)
    (t : Str) (ht : t <:+ sql) : litExec.isPrefixOf (t ++ post10) = false := by
  cases hp : litExec.isPrefixOf (t ++ post10) with
  | false => rfl
  | true =>
    rcases le_or_lt litExec.length t.length with hle | hlt
    · rw [prefOf_append_left _ _ _ hle] at hp
      rw [containsB_of_suffix litExec sql t ht hp] at hcl
      exact absurd hcl (by simp)
    · have hsp := prefOf_span litExec t post10 hp hlt
      have hdne : litExec.drop t.length ≠ [] := by
        intro hcontra
        have := List.length_drop t.length litExec
        rw [hcontra] at this
        simp at this
        omega
      have hmem : '"' ∈ litExec.drop t.length :=
        first_of_prefOf_cons _ (( ", args: [] \x7d)").toList) '"' hsp.2 hdne
      exact absurd (List.mem_of_mem_drop hmem) (by decide)

theorem trySimple_template_none (sql : Str) (hcl : containsB litExec sql = false) :
    ∀ t, t <:+ pre10 ++ (sql ++ post10) → trySimple t = none := by
  intro t ht
  rcases suffix_append_cases t pre10 (sql ++ post10) ht with hin | ⟨u', hu', hne, rfl⟩
  · rcases suffix_append_cases t sql post10 hin with hpost | ⟨s', hs', hsne, rfl⟩
    · have hpp : post10 = '"' :: ',' :: ' ' :: 'a' :: 'r' :: 'g' :: 's' :: ':' :: ' '
          :: '[' :: ']' :: ' ' :: braceR :: ')' :: [] := by decide
      rw [hpp] at hpost
      iterate 14
        (rcases List.suffix_cons_iff.mp hpost with rfl | hpost) <;> first | rfl | skip
      rw [List.suffix_nil.mp hpost]
      rfl
    · exact trySimple_none_of_noLit _
        (stripLit_eq_none _ _ (litExec_not_pref_inside sql hcl s' hs'))
  · have hpr : pre10 = 'c' :: 'l' :: 'i' :: 'e' :: 'n' :: 't' :: '.' :: 'e' :: 'x' :: 'e'
        :: 'c' :: 'u' :: 't' :: 'e' :: '(' :: braceL :: ' ' :: 's' :: 'q' :: 'l' :: ':'
        :: ' ' :: '"' :: [] := by decide
    rw [hpr] at hu'
    iterate 23
      (rcases List.suffix_cons_iff.mp hu' with rfl | hu') <;> first | rfl | skip
    exact absurd (List.suffix_nil.mp hu') hne

theorem closeComplex_nonquote (c : Char) (r : Str) (h : quoteCls c = false) :
    closeComplex (c :: r) = none := by
  simp [closeComplex, h]

theorem ngComplex_sql : ∀ (sql : Str), (∀ c ∈ sql, quoteCls c = false) →
    ngComplex (sql ++ post10) = some (sql, ('[' :: ']' :: []), [])
  | [], _ => rfl
  | c :: sql', hq => by
    rw [List.cons_append]
    rw [show ngComplex (c :: (sql' ++ post10))
        = (match closeComplex (c :: (sql' ++ post10)) with
          | some (g2, after) => some (([] : Str), g2, after)
          | none =>
            (match ngComplex (sql' ++ post10) with
             | some (g1, g2, after) => some (c :: g1, g2, after)
             | none => none)) from rfl]
    rw [closeComplex_nonquote c (sql' ++ post10) (hq c (List.mem_cons_self c sql'))]
    rw [ngComplex_sql sql' (fun b hb => hq b (List.mem_cons_of_mem c hb))]

theorem tryComplex_template (sql : Str) (hq : ∀ c ∈ sql, quoteCls c = false) :
    tryComplex (pre10 ++ (sql ++ post10)) = some ((sql, ('[' :: ']' :: [])), []) := by
  rw [show tryComplex (pre10 ++ (sql ++ post10))
      = (match ngComplex (sql ++ post10) with
        | some (g1, g2, after) => some ((g1, g2), after)
        | none => none) from rfl]
  rw [ngComplex_sql sql hq]

theorem map_countOcc_sum_zero (args : List Str) (h : ∀ a ∈ args, countOcc dsPat a = 0) :
    (args.map (countOcc dsPat)).sum = 0 := by
  apply List.sum_eq_zero
  intro x hx
  rcases List.mem_map.mp hx with ⟨a, ha, rfl⟩
  exact h a ha

/-! ## The claims -/

/-- C1 (amended): for a SQL template with `n` placeholder tokens and an
argument list of length `n`, provided no argument contains the placeholder
token `?` and neither the template nor any argument contains the
interpolation opener `$\x7b`, the rewrite loop of `repl_complex` produces a
string with zero remaining placeholder tokens and exactly `n` interpolation
openers. -/
theorem claim1_full_rewrite (sql : Str) (args : List Str) (n : Nat)
    (hn : countChar '?' sql = n) (hlen : args.length = n)
    (hq : ∀ a ∈ args, countChar '?' a = 0)
    (hds : countOcc dsPat sql = 0) (hads : ∀ a ∈ args, countOcc dsPat a = 0) :
    countChar '?' (rewriteLoop sql args) = 0 ∧
    countOcc dsPat (rewriteLoop sql args) = n := by
  obtain ⟨h1, h2⟩ := rewriteLoop_counts args sql hq (by omega)
  refine ⟨by omega, ?_⟩
  rw [h2, hds, hlen, map_countOcc_sum_zero args hads]
  omega

/-- C1 counterexample: for the template `$\x7b ?` with one placeholder and the
single argument `a?` (which itself contains a placeholder token), the claim as
stated fails: one placeholder token remains and two interpolation openers
appear. -/
theorem claim1_counterexample :
    countChar '?' (( "$\x7b ?").toList) = ([( "a?").toList] : List Str).length ∧
    ¬(countChar '?' (rewriteLoop ( "$\x7b ?").toList [( "a?").toList]) = 0 ∧
      countOcc dsPat (rewriteLoop ( "$\x7b ?").toList [( "a?").toList])
        = ([( "a?").toList] : List Str).length) := by decide

/-- C1 witness: the amended claim evaluated on a concrete template with two
placeholders and two clean arguments. -/
theorem claim1_witness :
    countChar '?' (rewriteLoop ( "a = ? AND b = ?").toList
      [( "name").toList, ( "age").toList]) = 0 ∧
    countOcc dsPat (rewriteLoop ( "a = ? AND b = ?").toList
      [( "name").toList, ( "age").toList]) = 2 :=
  claim1_full_rewrite _ _ 2 (by decide) (by decide) (by decide) (by decide) (by decide)

/-- C2 (amended): for a SQL template presented as `?`-free segments joined by
placeholder tokens, provided no argument expression contains the placeholder
token, the rewrite loop binds the i-th placeholder (left to right) to the
i-th argument, embedding it verbatim and never reordering: the result is
exactly the interleaving of the segments with the interpolations of the
arguments in order, leftover placeholders staying literal. -/
theorem claim2_positional (segs args : List Str)
    (hseg : ∀ s ∈ segs, countChar '?' s = 0) (harg : ∀ a ∈ args, countChar '?' a = 0)
    (hlen : args.length < segs.length) :
    rewriteLoop (joinQ segs) args = joinInterp segs args :=
  rewriteLoop_joinQ args segs hseg harg hlen

/-- C2 counterexample: with the template `a=? b=?` and arguments `x?` and `z`,
the second argument is not bound to the second placeholder: it is spliced into
the first argument's interpolation, so the claim as stated (for every argument
list) is false. -/
theorem claim2_counterexample :
    (∀ s ∈ [( "a=").toList, ( " b=").toList, ([] : Str)], countChar '?' s = 0) ∧
    ([( "x?").toList, ( "z").toList] : List Str).length
      < [( "a=").toList, ( " b=").toList, ([] : Str)].length ∧
    rewriteLoop (joinQ [( "a=").toList, ( " b=").toList, ([] : Str)])
        [( "x?").toList, ( "z").toList]
      ≠ joinInterp [( "a=").toList, ( " b=").toList, ([] : Str)]
        [( "x?").toList, ( "z").toList] := by decide

/-- C2 witness: the amended claim evaluated on a concrete template with two
placeholders and two clean arguments. -/
theorem claim2_witness :
    rewriteLoop (joinQ [( "a=").toList, ( " AND b=").toList, ([] : Str)])
        [( "name").toList, ( "age").toList]
      = joinInterp [( "a=").toList, ( " AND b=").toList, ([] : Str)]
        [( "name").toList, ( "age").toList] :=
  claim2_positional _ _ (by decide) (by decide) (by decide)

/-- C3 (amended): for a SQL template with `n` placeholder tokens and an
argument list of length `m < n`, provided no argument contains the
placeholder token and neither the template nor any argument contains the
interpolation opener, the output contains exactly `m` interpolation openers
and `n - m` literal placeholder tokens, and no error is raised (the rewrite
is total). -/
theorem claim3_partial (sql : Str) (args : List Str) (m n : Nat)
    (hn : countChar '?' sql = n) (hm : args.length = m) (hlt : m < n)
    (hq : ∀ a ∈ args, countChar '?' a = 0)
    (hds : countOcc dsPat sql = 0) (hads : ∀ a ∈ args, countOcc dsPat a = 0) :
    countOcc dsPat (rewriteLoop sql args) = m ∧
    countChar '?' (rewriteLoop sql args) = n - m := by
  obtain ⟨h1, h2⟩ := rewriteLoop_counts args sql hq (by omega)
  refine ⟨?_, by omega⟩
  rw [h2, hds, hm, map_countOcc_sum_zero args hads]
  omega

/-- C3 counterexample: for the template `??` (two placeholders) and the single
argument `a?`, the claim as stated predicts one interpolation and one leftover
placeholder, but the output contains two placeholder tokens. -/
theorem claim3_counterexample :
    countChar '?' ( "??").toList = 2 ∧ ([( "a?").toList] : List Str).length = 1 ∧
    ¬(countOcc dsPat (rewriteLoop ( "??").toList [( "a?").toList]) = 1 ∧
      countChar '?' (rewriteLoop ( "??").toList [( "a?").toList]) = 2 - 1) := by decide

/-- C3 witness: the amended claim evaluated on a template with two
placeholders and one clean argument. -/
theorem claim3_witness :
    countOcc dsPat (rewriteLoop ( "a=? b=?").toList [( "x").toList]) = 1 ∧
    countChar '?' (rewriteLoop ( "a=? b=?").toList [( "x").toList]) = 2 - 1 :=
  claim3_partial _ _ 1 2 (by decide) (by decide) (by decide) (by decide) (by decide)
    (by decide)

/-- C4: on the concrete input
`client.execute(\x7b sql: "SELECT * FROM t WHERE a = ? AND b = ?", args: [name, age] \x7d)`
the call-site conversion produces exactly
`client\x60SELECT * FROM t WHERE a = $\x7bname\x7d AND b = $\x7bage\x7d\x60`. -/
theorem claim4_concrete :
    convert_client_execute
      ( "client.execute(\x7b sql: \"SELECT * FROM t WHERE a = ? AND b = ?\", args: [name, age] \x7d)").toList
      = ( "client\x60SELECT * FROM t WHERE a = $\x7bname\x7d AND b = $\x7bage\x7d\x60").toList := by
  decide

/-- C5 (amended): the full per-file transformation is idempotent on every
input whose first-pass output contains no match of any of the script's
patterns (no call-site pattern fires, no `COLLATE NOCASE` regex match, and
neither `json_extract` literal occurs); in general a second pass can change
the output again. -/
theorem claim5_idempotent (s : Str)
    (h1 : hasMatchB trySimple (processFile s) = false)
    (h2 : hasMatchB tryComplex (processFile s) = false)
    (h3 : hasMatchB tryCollate (processFile s) = false)
    (h4 : containsB jsonLit1 (processFile s) = false)
    (h5 : containsB jsonLit2 (processFile s) = false)
    (h6 : hasMatchB tryNoArgs (processFile s) = false) :
    processFile (processFile s) = processFile s :=
  processFile_id (processFile s) h1 h2 h3 h4 h5 h6

/-- C5 counterexample: for the input `client.execute(\x60client.execute('y')\x60)`
the first pass produces `client\x60client.execute('y')\x60`, in which the simple
call-site pattern fires again, so the second pass changes the text further and
the full transformation is not idempotent. -/
theorem claim5_counterexample :
    processFile (processFile ( "client.execute(\x60client.execute(\x27y\x27)\x60)").toList)
      ≠ processFile ( "client.execute(\x60client.execute(\x27y\x27)\x60)").toList := by
  decide

/-- C5 witness: the amended claim applied to a concrete input whose first-pass
output `client\x60a\x60` matches no pattern. -/
theorem claim5_witness :
    processFile (processFile ( "client.execute(\x27a\x27)").toList)
      = processFile ( "client.execute(\x27a\x27)").toList :=
  claim5_idempotent _ (by decide) (by decide) (by decide) (by decide) (by decide)
    (by decide)

/-- C6 (amended): the `COLLATE NOCASE` substitution and the `json_extract`
literal substitutions commute on every input on which the `json_extract`
substitutions are no-ops both before and after the `COLLATE NOCASE`
substitution; in general their match patterns do overlap and the order
matters. -/
theorem claim6_commute (s : Str) (h1 : jsonSubs s = s)
    (h2 : jsonSubs (collateSub s) = collateSub s) :
    collateSub (jsonSubs s) = jsonSubs (collateSub s) := by
  rw [h1, h2]

/-- C6 counterexample: on
`json_extract(power, '$[0]') =  ? COLLATE NOCASE` (two spaces after `=`)
running the `COLLATE NOCASE` substitution first yields `power->>0 ILIKE ?`
while running the `json_extract` substitutions first yields
`json_extract(power, '$[0]') ILIKE ?`; the two substitutions do not commute
because their patterns overlap. -/
theorem claim6_counterexample :
    collateSub (jsonSubs ( "json_extract(power, \x27$[0]\x27) =  ? COLLATE NOCASE").toList)
      ≠ jsonSubs (collateSub ( "json_extract(power, \x27$[0]\x27) =  ? COLLATE NOCASE").toList) := by
  decide

/-- C6 witness: the amended claim applied to `a = ? COLLATE NOCASE`, on which
the `json_extract` substitutions are no-ops before and after. -/
theorem claim6_witness :
    collateSub (jsonSubs ( "a = ? COLLATE NOCASE").toList)
      = jsonSubs (collateSub ( "a = ? COLLATE NOCASE").toList) :=
  claim6_commute _ (by decide) (by decide)

/-- C7 (amended): for every string of the form `u ++ "= ? COLLATE NOCASE" ++ v`
where `u` contains no `=`, no `ILIKE` and (case-insensitively) no
`collate nocase`, and `v` contains no `?`, no `ILIKE` and no case-insensitive
`collate nocase`, the `COLLATE NOCASE` substitution yields a string with zero
remaining case-insensitive occurrences of `COLLATE NOCASE` and exactly one
occurrence of `ILIKE`.  (The claim as stated, for every string containing the
idiom, is false: without a preceding `= ?` the pattern does not fire.) -/
theorem claim7_collate (u v : Str) (hu_eq : '=' ∉ u) (hv_q : '?' ∉ v)
    (hu_ci : countOcc collLow (u.map lowerChar) = 0)
    (hv_ci : countOcc collLow (v.map lowerChar) = 0)
    (hu_il : countOcc ilikeLit u = 0) (hv_il : countOcc ilikeLit v = 0) :
    countOcc collLow ((collateSub (u ++ collIdiom ++ v)).map lowerChar) = 0 ∧
    countOcc ilikeLit (collateSub (u ++ collIdiom ++ v)) = 1 := by
  rw [collateSub_decomp u v hu_eq hv_q]
  exact collate_result_counts u v hu_ci hv_ci hu_il hv_il

/-- C7 counterexample: the string `COLLATE NOCASE` contains the idiom, but the
substitution leaves it unchanged (no `= ?` precedes it): one case-insensitive
occurrence of `COLLATE NOCASE` remains and no `ILIKE` appears. -/
theorem claim7_counterexample :
    containsB ( "COLLATE NOCASE").toList ( "COLLATE NOCASE").toList = true ∧
    ¬(countOcc collLow ((collateSub ( "COLLATE NOCASE").toList).map lowerChar) = 0 ∧
      countOcc ilikeLit (collateSub ( "COLLATE NOCASE").toList) = 1) := by decide

/-- C7 witness: the amended claim evaluated at `name = ? COLLATE NOCASE AND x`. -/
theorem claim7_witness :
    countOcc collLow ((collateSub (( "name ").toList ++ collIdiom
      ++ ( " AND x").toList)).map lowerChar) = 0 ∧
    countOcc ilikeLit (collateSub (( "name ").toList ++ collIdiom
      ++ ( " AND x").toList)) = 1 :=
  claim7_collate _ _ (by decide) (by decide) (by decide) (by decide) (by decide)
    (by decide)

/-- C8: the script splits the bracketed args text `[f(a, b)]` on every comma
(`re.split(r',\s*', ...)`), producing the two fragments `f(a` and `b)`,
whereas the specified depth-aware split keeps the single argument `f(a, b)`
intact; the code does not honour bracket depth. -/
theorem claim8_divergence :
    parseArgs ( "[f(a, b)]").toList = [( "f(a").toList, ( "b)").toList] ∧
    parseArgsSpec ( "[f(a, b)]").toList = [( "f(a, b)").toList] := by decide

/-- C9: on an input in which no call-site shape and no dialect idiom occurs
(none of the patterns matches and neither `json_extract` literal occurs), the
whole per-file transformation returns the text unchanged, so the file is not
rewritten. -/
theorem claim9_no_match (s : Str)
    (h1 : hasMatchB trySimple s = false) (h2 : hasMatchB tryComplex s = false)
    (h3 : hasMatchB tryCollate s = false)
    (h4 : containsB jsonLit1 s = false) (h5 : containsB jsonLit2 s = false)
    (h6 : hasMatchB tryNoArgs s = false) :
    processFile s = s :=
  processFile_id s h1 h2 h3 h4 h5 h6

/-- C9 witness: a concrete file text with no matching pattern is returned
byte-for-byte identical. -/
theorem claim9_witness :
    processFile ( "const n = rows.length; // sum = total + 1").toList
      = ( "const n = rows.length; // sum = total + 1").toList :=
  claim9_no_match _ (by decide) (by decide) (by decide) (by decide) (by decide)
    (by decide)

/-- C10: a call site `client.execute(\x7b sql: "SQL", args: [] \x7d)` with an
empty args array (SQL being any quote-free text not containing
`client.execute(`) is matched by the complex pattern and rewritten to
`client\x60SQL\x60`, with the SQL text embedded verbatim: every placeholder token
is left unchanged and zero interpolations are inserted. -/
theorem claim10_empty_args (sql : Str) (hq : ∀ c ∈ sql, quoteCls c = false)
    (hcl : containsB litExec sql = false) :
    convert_client_execute (pre10 ++ sql ++ post10)
      = ( "client").toList ++ [btick] ++ sql ++ [btick] := by
  rw [List.append_assoc]
  unfold convert_client_execute
  rw [subAll_noMatchP trySimple repl_simple _ (trySimple_template_none sql hcl)]
  rw [subAll_full tryComplex repl_complex _ _ (tryComplex_template sql hq) (by
    intro hcontra
    have hlencontra := congrArg List.length hcontra
    simp [pre10] at hlencontra)]
  rfl

/-- C10 witness: the empty-args conversion evaluated on a SQL text with a
placeholder token, which survives verbatim. -/
theorem claim10_witness :
    convert_client_execute (pre10 ++ ( "SELECT ? FROM t").toList ++ post10)
      = ( "client").toList ++ [btick] ++ ( "SELECT ? FROM t").toList ++ [btick] :=
  claim10_empty_args _ (by decide) (by decide)

end Sinistra
